import Mathlib

/-!
Shallow embedding of the hzlauncher core (src/backend/mc_manager.rs,
src/backend/downloader.rs, src/backend/mc_downloader.rs) and proofs about it.

Conventions of the embedding:
* Rust's mutable-loop code becomes explicit recursion with the accumulator
  passed along.
* `std::env::consts::{OS, ARCH, FAMILY}` become the fields of a `Host`
  parameter.
* Code that can panic (`unwrap`, `todo!`) is modelled with `Option`: a `none`
  result stands for the panic.
* The filesystem is modelled as the list of paths of the files that exist;
  `tokio::fs::try_exists(p).is_ok_and(|v| v)` becomes list membership.
-/

namespace HzLauncher

/-- The host descriptor: the values of `std::env::consts::OS`,
`std::env::consts::ARCH` and `std::env::consts::FAMILY` that
`McManager::check_rules` and `McManager::play_version` read. -/
structure Host where
  os : String
  arch : String
  family : String
deriving DecidableEq, Repr

/-- The optional `os` object of a rule: `{ name?, arch? }`. -/
structure OsPred where
  name : Option String
  arch : Option String
deriving DecidableEq, Repr

/-- The condition part of a rule, as `check_rules` probes it: an `os` object,
a `features` map (association list in document order), or neither of the two
keys (the `todo!()` branch of the source). -/
inductive RuleCond where
  | osCond (p : OsPred)
  | featuresCond (flags : List (String × Bool))
  | neitherCond
deriving DecidableEq, Repr

/-- A rule: `{ action, os? | features? }`. -/
structure Rule where
  action : String
  cond : RuleCond
deriving DecidableEq, Repr

/-- The `features` branch of `McManager::check_rules` (mc_manager.rs lines
113-126): `is` starts `true`; the loop over the map's entries sets `is = false`
and breaks on its first entry, in both branches of the
`has_custom_resolution` test. -/
def featuresMatch : List (String × Bool) → Bool
  | [] => true
  | (feature, value) :: _ =>
    if feature == "has_custom_resolution" && value == true then
      false
    else
      false

/-- The per-rule match value `is` of `McManager::check_rules` (mc_manager.rs
lines 96-129). `none` models the `todo!()` panic for a rule with neither an
`os` nor a `features` key. -/
def ruleMatches (host : Host) : RuleCond → Option Bool
  | .osCond p =>
    let is_name :=
      match p.name with
      | some name => host.os == name
      | none => true
    let is_arch :=
      match p.arch with
      | some arch =>
        if arch == "x86" && (host.arch == "x86" || host.arch == "x86_64") then
          true
        else
          host.arch == arch
      | none => true
    some (is_name && is_arch)
  | .featuresCond features => some (featuresMatch features)
  | .neitherCond => none

/-- The loop of `McManager::check_rules` (mc_manager.rs lines 93-134) with the
running `allow` value made explicit. -/
def checkRulesGo (host : Host) : List Rule → Bool → Option Bool
  | [], allow => some allow
  | rule :: rest, allow =>
    match ruleMatches host rule.cond with
    | none => none
    | some is =>
      checkRulesGo host rest
        (if (rule.action == "deny" && is) || (rule.action == "allow" && !is) then
          false
        else
          allow)

/-- `McManager::check_rules` (mc_manager.rs lines 87-135): an absent rules
list allows; otherwise the loop runs over every rule starting from
`allow = true`. -/
def checkRules (host : Host) : Option (List Rule) → Option Bool
  | none => some true
  | some rules => checkRulesGo host rules true

/-- The effect of one rule on the running `allow` value, as the spec states
it: after computing the rule's match value, `allow` becomes `false` exactly
when (`action == deny` and the rule matches) or (`action == allow` and the
rule does not match). -/
def ruleStep (host : Host) (allow : Bool) (rule : Rule) : Option Bool :=
  (ruleMatches host rule.cond).map fun is =>
    if (rule.action == "deny" && is) || (rule.action == "allow" && !is) then
      false
    else
      allow

/-- A downloader response: the body bytes on success or the transport
error's message on failure. -/
inductive NetResult where
  | ok (bytes : List Nat)
  | err (msg : String)
deriving DecidableEq, Repr

/-- `Downloader` (downloader.rs lines 3-7): the pending-download queue. The
`reqwest` client and the concurrency width `parallel` affect only the
completion order of a batch, not which pairs it returns, and are not
modelled. -/
structure Downloader (I : Type) where
  downloads : List (I × String)
deriving DecidableEq, Repr

/-- `Downloader::add_download` (downloader.rs lines 36-38): push onto the
queue. -/
def add_download {I : Type} (d : Downloader I) (id : I) (url : String) : Downloader I :=
  ⟨d.downloads ++ [(id, url)]⟩

/-- `Downloader::download_all` (downloader.rs lines 14-30): `mem::take` the
queue (leaving it empty) and GET every item, each one independently yielding
its own `(id, result)` pair. The network is modelled by the response
function `net`; `buffer_unordered` only permutes the order of the returned
pairs and is modelled by stream order. -/
def download_all {I : Type} (net : String → NetResult) (d : Downloader I) :
    List (I × NetResult) × Downloader I :=
  (d.downloads.map fun p => (p.1, net p.2), ⟨[]⟩)

/-- `Latest` (all_versions.rs lines 4-7). -/
structure Latest where
  release : String
  snapshot : String
deriving DecidableEq, Repr

/-- `Version` (all_versions.rs lines 10-21): one manifest summary entry. -/
structure VersionSummary where
  id : String
  t : String
  url : String
  time : String
  release_time : String
  sha1 : String
  compliance_level : Nat
deriving DecidableEq, Repr

/-- `Versions` (all_versions.rs lines 24-27): the version manifest. -/
structure Versions where
  latest : Latest
  versions : List VersionSummary
deriving DecidableEq, Repr

/-- The outcome of `tokio::fs::read_to_string` on the manifest file. -/
inductive ReadOutcome where
  | ok (data : String)
  | notFound
  | otherErr (msg : String)
deriving DecidableEq, Repr

/-- `McError` (mc_manager.rs lines 10-14). -/
inductive McError where
  | network (msg : String)
  | fs (msg : String)
deriving DecidableEq, Repr

/-- `serde_json::from_str` at the type forced by `return Ok(versions)` in
`load_versions`: the function returns `McResult<()>`, so type inference
makes the parse target the unit type, and the unit type deserializes from
exactly the JSON document `null` (serde also tolerates surrounding
whitespace, immaterial here and not modelled). -/
def parseJsonUnit (data : String) : Option Unit :=
  if data == "null" then some () else none

/-- The observable outcome of one `load_versions` call: the returned value,
whether the network manifest endpoint was hit, whether the manifest file was
written, and the value stored into `self.versions` (`none` = field left
unchanged). -/
structure LoadVersionsResult where
  result : Except McError Unit
  fetchedFromNetwork : Bool
  wroteFile : Bool
  retained : Option Versions
deriving Repr

/-- The fetch-and-populate tail of `load_versions` (mc_manager.rs lines
80-84): fetch the manifest, write the manifest file, store the manifest in
`self.versions`, return `Ok(())`. -/
def loadVersionsFetch (netVersions : Versions) : LoadVersionsResult :=
  ⟨.ok (), true, true, some netVersions⟩

/-- `McManager::load_versions` (mc_manager.rs lines 67-85) as a function of
the file-read outcome and of the manifest the network would serve. On a
successful read the source runs
`if let Ok(versions) = serde_json::from_str(&data) { return Ok(versions); }`
whose target type is `()`, and on parse failure falls through to the fetch
tail. -/
def load_versions (fsRead : ReadOutcome) (netVersions : Versions) : LoadVersionsResult :=
  match fsRead with
  | .ok data =>
    match parseJsonUnit data with
    | some _ => ⟨.ok (), false, false, none⟩
    | none => loadVersionsFetch netVersions
  | .notFound => loadVersionsFetch netVersions
  | .otherErr msg => ⟨.error (.fs msg), false, false, none⟩

/-- The thirteen placeholder patterns built in `McManager::new`
(mc_manager.rs lines 48-62), in order. -/
def patterns : List String :=
  ["${auth_player_name}", "${version_name}", "${game_directory}",
   "${assets_root}", "${assets_index_name}", "${auth_uuid}",
   "${auth_access_token}", "${user_type}", "${version_type}",
   "${natives_directory}", "${launcher_name}", "${launcher_version}",
   "${classpath}"]

/-- `McCredentials` (account.rs lines 15-18), restricted to the field
`do_replacements` reads. -/
structure McCredentials where
  access_token : String
deriving DecidableEq, Repr

/-- `Account` (account.rs lines 21-26), restricted to the fields
`do_replacements` reads. -/
structure Account where
  name : String
  id : String
  mc_creds : McCredentials
deriving DecidableEq, Repr

/-- The inputs `McManager::do_replacements` (mc_manager.rs lines 137-158)
reads besides the argument and the classpath: the account and the version
document's `id`, `assets` and `type` strings, plus the canonicalized
`data/instance`, `data/assets` and `data/natives` paths. -/
structure ReplacementEnv where
  account : Account
  versionId : String
  versionAssets : String
  versionType : String
  instancePath : String
  assetsPath : String
  nativesPath : String
deriving DecidableEq, Repr

/-- The replacement values of `do_replacements` (mc_manager.rs lines
144-158), parallel to `patterns`. -/
def replacementValues (env : ReplacementEnv) (classpath : String) : List String :=
  [env.account.name, env.versionId, env.instancePath, env.assetsPath,
   env.versionAssets, env.account.id, env.account.mc_creds.access_token,
   "mojang", env.versionType, env.nativesPath, "HZLauncher", "1.0",
   classpath]

/-- The pattern (with its replacement) matching at the head of `l`, if any.
For the launcher's pattern set at most one pattern can match at a given
position, since no pattern is a prefix of another. -/
def findRepl (table : List (String × String)) (l : List Char) : Option (String × String) :=
  table.find? fun p => p.1.data.isPrefixOf l

/-- One left-to-right scan of `AhoCorasick::replace_all`: at each position,
if a pattern matches there, emit its replacement and skip the matched text,
otherwise keep the character. `fuel` bounds the recursion; every step
consumes at least one character, so `fuel = length` suffices. For the
launcher's pattern set no two pattern occurrences can overlap (each pattern
contains the character `$` only at position 0), so this scan computes
exactly the non-overlapping matching `replace_all` performs. -/
def replaceAllAux (table : List (String × String)) : Nat → List Char → List Char
  | _, [] => []
  | 0, l => l
  | fuel + 1, c :: rest =>
    match findRepl table (c :: rest) with
    | some p => p.2.data ++ replaceAllAux table fuel (rest.drop (p.1.length - 1))
    | none => c :: replaceAllAux table fuel rest

/-- `self.aho.replace_all(argument, replace)` of mc_manager.rs line 159. -/
def replaceAll (table : List (String × String)) (s : String) : String :=
  String.mk (replaceAllAux table s.data.length s.data)

/-- `res.starts_with` applied to the sentinel character `$` (mc_manager.rs
line 160). -/
def startsWithDollar (s : String) : Bool :=
  match s.data with
  | [] => false
  | c :: _ => c == '$'

/-- `McManager::do_replacements` (mc_manager.rs lines 137-165). -/
def do_replacements (env : ReplacementEnv) (argument : String) (classpath : String) : String :=
  let res := replaceAll (patterns.zip (replacementValues env classpath)) argument
  if startsWithDollar res then "" else res

/-- A library entry of a version document: `downloads.artifact.{path,url}`
and the optional `rules` list. -/
structure Library where
  path : String
  url : String
  rules : Option (List Rule)
deriving Repr

/-- One entry of the asset index's `objects` map: the legacy virtual path
(the key) and the object's `hash`. -/
structure AssetObject where
  legacyPath : String
  hash : String
deriving Repr

/-- The fields of a version-detail document that the staging part of
`play_version` reads. -/
structure VersionDoc where
  id : String
  clientUrl : String
  assetIndexId : String
  assetIndexUrl : String
  libraries : List Library
deriving Repr

/-- `tokio::fs::try_exists(p).await.is_ok_and(|value| value == true)`: in
the filesystem model, whether the file at `p` exists. -/
def fsHas (fs : List String) (p : String) : Bool :=
  decide (p ∈ fs)

/-- The sharded sub-path `hash[0..2]/hash` of mc_manager.rs line 265. -/
def hashSubPath (hash : String) : String :=
  hash.take 2 ++ "/" ++ hash

/-- The asset CDN URL `RESOURCES_URL/subPath` of mc_manager.rs line 274. -/
def assetUrl (subPath : String) : String :=
  "https://resources.download.minecraft.net/" ++ subPath

/-- The library loop of `play_version` (mc_manager.rs lines 192-217):
returns the classpath string and, in enqueue order, the `(path, url)` pairs
whose artifacts are missing; `none` models the `todo!()` panic on a
malformed rule. Disallowed libraries are skipped before the classpath
append; already-existing artifacts are skipped after it. -/
def collectLibraries (host : Host) (fs : List String) :
    List Library → Option (String × List (String × String))
  | [] => some ("", [])
  | lib :: rest =>
    match checkRules host lib.rules with
    | none => none
    | some allow =>
      match collectLibraries host fs rest with
      | none => none
      | some (cp, queue) =>
        if !allow then
          some (cp, queue)
        else
          let entry := "data/libraries/" ++
            (if host.family == "unix" then lib.path ++ ":" else ";")
          if fsHas fs ("data/libraries/" ++ lib.path) then
            some (entry ++ cp, queue)
          else
            some (entry ++ cp, (lib.path, lib.url) :: queue)

/-- The writes of the first batch loop (mc_manager.rs lines 219-231): each
downloaded library body is written to `data/libraries/<path>`. -/
def writeLibs (fs : List String) : List (String × String) → List String
  | [] => fs
  | e :: queue => writeLibs (("data/libraries/" ++ e.1) :: fs) queue

/-- The asset loop of `play_version` (mc_manager.rs lines 263-278): the
`(subPath, legacyPath)` pairs pushed onto the parallel `paths` table, in
enqueue order; an object is skipped only when both its canonical file and
its legacy mirror exist. -/
def collectAssets (fs : List String) : List AssetObject → List (String × String)
  | [] => []
  | a :: rest =>
    if fsHas fs ("data/assets/objects/" ++ hashSubPath a.hash) &&
        fsHas fs ("data/assets/virtual/legacy/" ++ a.legacyPath) then
      collectAssets fs rest
    else
      (hashSubPath a.hash, "data/assets/virtual/legacy/" ++ a.legacyPath) ::
        collectAssets fs rest

/-- The writes of the second batch loop (mc_manager.rs lines 280-294): each
canonical asset file is written and then copied to its legacy mirror. -/
def writeAssets (fs : List String) : List (String × String) → List String
  | [] => fs
  | e :: queue => writeAssets (e.2 :: ("data/assets/objects/" ++ e.1) :: fs) queue

/-- What one run of the staging part of `play_version` did: the resulting
filesystem, whether the detail document / client jar / asset index were
fetched over the network, the queues of the two download batches (each
batch's network request count is its queue's length), and the classpath. -/
structure StageResult where
  fs : List String
  detailFetched : Bool
  clientFetched : Bool
  indexFetched : Bool
  libQueue : List (String × String)
  assetQueue : List (String × String)
  classpath : String
deriving Repr

/-- One read-or-fetch-and-persist step on a cache file (the detail document
of mc_manager.rs lines 170-186, the client jar of lines 233-239, the asset
index of lines 249-259): if the file exists it is read, otherwise its
content is fetched and the file written. Returns the resulting filesystem
and whether the network was hit. -/
def cacheFile (fs : List String) (path : String) : List String × Bool :=
  (if fsHas fs path then fs else path :: fs, !fsHas fs path)

/-- The staging part of `McManager::play_version` (mc_manager.rs lines
167-294, before argument assembly), with all downloads succeeding, as a
function of the host, of `Path::canonicalize` (`canon`), of the requested
version string, of the version-detail document `vd`, of the asset index's
`objects` entries in iteration order, and of the starting filesystem. The
detail and asset-index documents are the same whether read from their cache
files or fetched, since a fetch persists the fetched bytes verbatim. -/
def play_stage (host : Host) (canon : String → String) (version : String)
    (vd : VersionDoc) (assets : List AssetObject) (fs0 : List String) :
    Option StageResult :=
  let s1 := cacheFile fs0 ("data/versions/" ++ version ++ ".json")
  match collectLibraries host s1.1 vd.libraries with
  | none => none
  | some (cp, libQueue) =>
    let fs2 := writeLibs s1.1 libQueue
    let s3 := cacheFile fs2 ("data/clients/" ++ vd.id ++ ".jar")
    let s4 := cacheFile s3.1 ("data/assets/indexes/" ++ vd.assetIndexId ++ ".json")
    let assetQueue := collectAssets s4.1 assets
    some ⟨writeAssets s4.1 assetQueue, s1.2, s3.2, s4.2, libQueue, assetQueue,
      cp ++ canon ("data/clients/" ++ vd.id ++ ".jar")⟩

/-- A batch's enqueue loop in `play_version`: `add_download(url, id)` with
`id` counting densely from 0 in enqueue order, starting from the empty queue
left behind by the previous `download_all`. -/
def enqueueAll (urls : List String) : Downloader Nat :=
  urls.enum.foldl (fun d p => add_download d p.1 p.2) ⟨[]⟩

/-- Spec side, C5: the artifact paths of the rule-allowed libraries, in
iteration order. -/
def allowedLibPaths (host : Host) (libs : List Library) : List String :=
  (libs.filter fun lib => checkRules host lib.rules == some true).map Library.path

/-- Spec side, C5: `"data/libraries/p1:" ++ ... ++ "data/libraries/pn:"`. -/
def classpathOfPaths (paths : List String) : String :=
  paths.foldr (fun p acc => "data/libraries/" ++ p ++ ":" ++ acc) ""

/-- A concrete replacement environment used to evaluate the templater: the
account `Steve`, version `1.20.1` of type `release` with asset index `5`,
and canonicalized data paths. -/
def sampleEnv : ReplacementEnv :=
  ⟨⟨"Steve", "uuid-1", ⟨"tok-1"⟩⟩, "1.20.1", "5", "release",
   "/abs/instance", "/abs/assets", "/abs/natives"⟩

end HzLauncher

namespace HzLauncher

theorem foldl_ruleStep_none (host : Host) (rules : List Rule) :
    rules.foldl (fun acc rule => acc.bind fun allow => ruleStep host allow rule) none = none := by
  induction rules with
  | nil => rfl
  | cons r rest ih => simpa using ih

theorem checkRulesGo_eq_foldl (host : Host) (rules : List Rule) (b : Bool) :
    checkRulesGo host rules b =
      rules.foldl (fun acc rule => acc.bind fun allow => ruleStep host allow rule) (some b) := by
  induction rules generalizing b with
  | nil => rfl
  | cons r rest ih =>
    simp only [checkRulesGo, List.foldl_cons]
    cases h : ruleMatches host r.cond with
    | none =>
      dsimp only
      simp only [ruleStep, h, Option.map_none, Option.some_bind]
      exact (foldl_ruleStep_none host rest).symm
    | some is =>
      dsimp only
      rw [ih]
      simp [ruleStep, h]

theorem checkRulesGo_false (host : Host) (rules : List Rule) :
    checkRulesGo host rules false = some false ∨ checkRulesGo host rules false = none := by
  induction rules with
  | nil => exact Or.inl rfl
  | cons r rest ih =>
    simp only [checkRulesGo]
    cases h : ruleMatches host r.cond with
    | none => exact Or.inr rfl
    | some is =>
      cases hc : (r.action == "deny" && is) || (r.action == "allow" && !is) <;> simpa using ih

/-- C1: rule evaluation. An absent rules list yields `allow = true`; otherwise
evaluation starts from `allow = true` and folds every rule of the list in
order through `ruleStep` (which sets `allow` to `false` exactly when
(`deny` and matches) or (`allow` and not matches), and otherwise keeps the
running value), the fold's final value being the returned result; and once
`allow` is `false` no later rule ever brings it back to `true`. -/
theorem check_rules_spec (host : Host) :
    checkRules host none = some true ∧
    (∀ rules : List Rule,
      checkRules host (some rules) =
        rules.foldl (fun acc rule => acc.bind fun allow => ruleStep host allow rule)
          (some true)) ∧
    (∀ rules : List Rule,
      checkRulesGo host rules false = some false ∨ checkRulesGo host rules false = none) :=
  ⟨rfl, fun rules => checkRulesGo_eq_foldl host rules true, checkRulesGo_false host⟩

theorem arch_disj_iff (host : Host) (a : String) :
    a = "x86" ∧ (host.arch = "x86" ∨ host.arch = "x86_64") ∨ host.arch = a ↔
      host.arch = a ∨ a = "x86" ∧ host.arch = "x86_64" := by
  constructor
  · rintro (⟨rfl, h | h⟩ | h)
    · exact Or.inl h
    · exact Or.inr ⟨rfl, h⟩
    · exact Or.inl h
  · rintro (h | ⟨rfl, h⟩)
    · exact Or.inr h
    · exact Or.inl ⟨rfl, Or.inr h⟩

theorem os_cond_iff (host : Host) (p : OsPred) :
    ruleMatches host (.osCond p) = some true ↔
      ((∀ name ∈ p.name, host.os = name) ∧
       (∀ arch ∈ p.arch, host.arch = arch ∨ (arch = "x86" ∧ host.arch = "x86_64"))) := by
  obtain ⟨oname, oarch⟩ := p
  cases oname <;> cases oarch <;>
    simp [ruleMatches, Option.mem_def, arch_disj_iff, beq_iff_eq]

/-- C7: the os predicate of a rule is true exactly when (no name is given,
or the given name equals the host OS name) and (no arch is given, or the
host arch equals the given arch, or — the special case — the given arch is
"x86" and the host arch is "x86_64"); in particular a single
`{action: deny, os: {arch: "x86"}}` rule on an "x86_64" host yields
`allow = false`. -/
theorem os_rule_spec :
    (∀ (host : Host) (p : OsPred),
      ruleMatches host (.osCond p) = some true ↔
        ((∀ name ∈ p.name, host.os = name) ∧
         (∀ arch ∈ p.arch, host.arch = arch ∨ (arch = "x86" ∧ host.arch = "x86_64")))) ∧
    checkRules ⟨"linux", "x86_64", "unix"⟩
      (some [⟨"deny", .osCond ⟨none, some "x86"⟩⟩]) = some false :=
  ⟨os_cond_iff, by decide⟩

/-- C7 witness: the iff applied at a concrete host and os predicate, the
hypothesis side discharged concretely. -/
theorem os_rule_spec_witness :
    ruleMatches ⟨"windows", "x86_64", "windows"⟩ (.osCond ⟨some "windows", none⟩) = some true :=
  (os_rule_spec.1 ⟨"windows", "x86_64", "windows"⟩ ⟨some "windows", none⟩).mpr
    (by constructor <;> simp)

/-- C8 counterexample: a rule can carry a features map that is empty, and on
it the features predicate evaluates to `true`, not `false`: the claim's
"for every rule carrying a features map the predicate evaluates to false"
fails at the empty map. -/
theorem features_empty_map_true :
    ruleMatches ⟨"linux", "x86_64", "unix"⟩ (.featuresCond []) = some true ∧
    ruleMatches ⟨"linux", "x86_64", "unix"⟩ (.featuresCond []) ≠ some false := by
  decide

/-- C8 amended: for every rule carrying a non-empty features map the
features predicate evaluates to false — when the recognized
custom-resolution flag is its first entry with value true the predicate is
false, and any other first entry also makes it false. -/
theorem features_nonempty_false (host : Host) (flag : String × Bool)
    (rest : List (String × Bool)) :
    ruleMatches host (.featuresCond (flag :: rest)) = some false := by
  obtain ⟨feature, value⟩ := flag
  simp only [ruleMatches, featuresMatch, Option.some_inj]
  split <;> rfl

/-- C10: an empty features map makes the features predicate evaluate to
true, so an allow-action rule with an empty features map leaves the running
allow value unchanged while a deny-action rule with an empty features map
sets it to false. -/
theorem features_empty_rule_spec (host : Host) (allow0 : Bool) :
    ruleMatches host (.featuresCond []) = some true ∧
    checkRulesGo host [⟨"allow", .featuresCond []⟩] allow0 = some allow0 ∧
    checkRulesGo host [⟨"deny", .featuresCond []⟩] allow0 = some false := by
  refine ⟨rfl, ?_, ?_⟩ <;> cases allow0 <;> rfl

/-- C6: `download_all` returns exactly one `(id, result)` pair per queued
item — each pair's result is that item's own response body or transport
error, computed independently of its siblings, so one failure never stops
another item from being attempted and reported — and it leaves the
pending-download queue empty. -/
theorem download_all_drains (I : Type) (net : String → NetResult) (d : Downloader I) :
    (download_all net d).1 = (d.downloads.map fun p => (p.1, net p.2)) ∧
    (download_all net d).2.downloads = [] :=
  ⟨rfl, rfl⟩

/-- C2: evaluation of `load_versions` at its branch inputs. With the
manifest file present and holding a real serialized manifest (any text other
than the JSON document `null`), the call fetches from the network despite
the successful read, because the cached text is parsed at the unit type; a
file holding `null` makes the call return success without retaining any
manifest; the not-found branch fetches, persists, retains and succeeds; any
other filesystem error is returned as a `Filesystem` error with no fetch. -/
theorem load_versions_cache_bug :
    (load_versions
      (.ok "\x7b\"latest\":\x7b\"release\":\"1.0\",\"snapshot\":\"1.0\"\x7d,\"versions\":[]\x7d")
      ⟨⟨"1.0", "1.0"⟩, []⟩).fetchedFromNetwork = true ∧
    (load_versions (.ok "null") ⟨⟨"1.0", "1.0"⟩, []⟩).result = .ok () ∧
    (load_versions (.ok "null") ⟨⟨"1.0", "1.0"⟩, []⟩).retained = none ∧
    (load_versions .notFound ⟨⟨"1.0", "1.0"⟩, []⟩).fetchedFromNetwork = true ∧
    (load_versions .notFound ⟨⟨"1.0", "1.0"⟩, []⟩).wroteFile = true ∧
    (load_versions .notFound ⟨⟨"1.0", "1.0"⟩, []⟩).retained = some ⟨⟨"1.0", "1.0"⟩, []⟩ ∧
    (load_versions .notFound ⟨⟨"1.0", "1.0"⟩, []⟩).result = .ok () ∧
    (load_versions (.otherErr "io") ⟨⟨"1.0", "1.0"⟩, []⟩).result = .error (.fs "io") ∧
    (load_versions (.otherErr "io") ⟨⟨"1.0", "1.0"⟩, []⟩).fetchedFromNetwork = false := by
  refine ⟨?_, rfl, rfl, rfl, rfl, rfl, rfl, rfl, rfl⟩
  rfl

/-- C4: with an account set, each of the thirteen known placeholders is
replaced by its corresponding value; every occurrence is replaced in the
single pass; and an argument still beginning with the sentinel character `$`
after substitution yields the empty string instead of the unresolved text. -/
theorem do_replacements_spec :
    do_replacements sampleEnv "${auth_player_name}" "cp.jar" = "Steve" ∧
    do_replacements sampleEnv "${version_name}" "cp.jar" = "1.20.1" ∧
    do_replacements sampleEnv "${game_directory}" "cp.jar" = "/abs/instance" ∧
    do_replacements sampleEnv "${assets_root}" "cp.jar" = "/abs/assets" ∧
    do_replacements sampleEnv "${assets_index_name}" "cp.jar" = "5" ∧
    do_replacements sampleEnv "${auth_uuid}" "cp.jar" = "uuid-1" ∧
    do_replacements sampleEnv "${auth_access_token}" "cp.jar" = "tok-1" ∧
    do_replacements sampleEnv "${user_type}" "cp.jar" = "mojang" ∧
    do_replacements sampleEnv "${version_type}" "cp.jar" = "release" ∧
    do_replacements sampleEnv "${natives_directory}" "cp.jar" = "/abs/natives" ∧
    do_replacements sampleEnv "${launcher_name}" "cp.jar" = "HZLauncher" ∧
    do_replacements sampleEnv "${launcher_version}" "cp.jar" = "1.0" ∧
    do_replacements sampleEnv "${classpath}" "cp.jar" = "cp.jar" ∧
    do_replacements sampleEnv "name=${auth_player_name} of ${version_name}" "cp.jar" =
      "name=Steve of 1.20.1" ∧
    do_replacements sampleEnv "${unknown_placeholder}" "cp.jar" = "" := by
  decide

theorem fsHas_iff (fs : List String) (p : String) : fsHas fs p = true ↔ p ∈ fs := by
  simp [fsHas]

theorem subset_writeLibs (q : List (String × String)) :
    ∀ (fs : List String), ∀ x ∈ fs, x ∈ writeLibs fs q := by
  induction q with
  | nil => intro fs x hx; exact hx
  | cons e q ih =>
    intro fs x hx
    exact ih _ x (List.mem_cons_of_mem _ hx)

theorem mem_writeLibs (q : List (String × String)) :
    ∀ (fs : List String), ∀ e ∈ q, ("data/libraries/" ++ e.1) ∈ writeLibs fs q := by
  induction q with
  | nil => intro fs e he; cases he
  | cons e' q ih =>
    intro fs e he
    rcases List.mem_cons.mp he with rfl | he'
    · exact subset_writeLibs q _ _ (List.mem_cons_self _ _)
    · exact ih _ e he'

theorem subset_writeAssets (q : List (String × String)) :
    ∀ (fs : List String), ∀ x ∈ fs, x ∈ writeAssets fs q := by
  induction q with
  | nil => intro fs x hx; exact hx
  | cons e q ih =>
    intro fs x hx
    exact ih _ x (List.mem_cons_of_mem _ (List.mem_cons_of_mem _ hx))

theorem mem_writeAssets (q : List (String × String)) :
    ∀ (fs : List String), ∀ e ∈ q,
      ("data/assets/objects/" ++ e.1) ∈ writeAssets fs q ∧ e.2 ∈ writeAssets fs q := by
  induction q with
  | nil => intro fs e he; cases he
  | cons e' q ih =>
    intro fs e he
    rcases List.mem_cons.mp he with rfl | he'
    · refine ⟨subset_writeAssets q _ _ ?_, subset_writeAssets q _ _ ?_⟩
      · exact List.mem_cons_of_mem _ (List.mem_cons_self _ _)
      · exact List.mem_cons_self _ _
    · exact ih _ e he'

theorem collectLibraries_stable (host : Host) (libs : List Library)
    (fs fs' : List String) :
    ∀ (cp : String) (q : List (String × String)),
      collectLibraries host fs libs = some (cp, q) →
      (∀ x ∈ fs, x ∈ fs') →
      (∀ e ∈ q, ("data/libraries/" ++ e.1) ∈ fs') →
      collectLibraries host fs' libs = some (cp, []) := by
  induction libs with
  | nil =>
    intro cp q h hsub hq
    simp only [collectLibraries, Option.some_inj, Prod.mk.injEq] at h
    obtain ⟨rfl, rfl⟩ := h
    rfl
  | cons lib rest ih =>
    intro cp q h hsub hq
    simp only [collectLibraries] at h ⊢
    cases hc : checkRules host lib.rules with
    | none => rw [hc] at h; exact absurd h (by simp)
    | some allow =>
      rw [hc] at h
      dsimp only at h ⊢
      cases hr : collectLibraries host fs rest with
      | none => rw [hr] at h; exact absurd h (by simp)
      | some pr =>
        obtain ⟨cpR, qR⟩ := pr
        rw [hr] at h
        dsimp only at h
        cases allow with
        | false =>
          simp at h
          obtain ⟨rfl, rfl⟩ := h
          rw [ih cpR qR hr hsub hq]
          rfl
        | true =>
          cases hfs : fsHas fs ("data/libraries/" ++ lib.path) with
          | true =>
            rw [hfs] at h
            simp at h
            obtain ⟨rfl, rfl⟩ := h
            have hmem : ("data/libraries/" ++ lib.path) ∈ fs' :=
              hsub _ ((fsHas_iff fs _).mp hfs)
            rw [ih cpR qR hr hsub hq]
            dsimp only
            rw [(fsHas_iff fs' _).mpr hmem]
            simp
          | false =>
            rw [hfs] at h
            simp at h
            obtain ⟨rfl, rfl⟩ := h
            have hmem : ("data/libraries/" ++ lib.path) ∈ fs' :=
              hq (lib.path, lib.url) (List.mem_cons_self _ _)
            rw [ih cpR qR hr hsub fun e he => hq e (List.mem_cons_of_mem _ he)]
            dsimp only
            rw [(fsHas_iff fs' _).mpr hmem]
            simp

theorem collectAssets_cons_skip (fs : List String) (a : AssetObject)
    (rest : List AssetObject)
    (h : (fsHas fs ("data/assets/objects/" ++ hashSubPath a.hash) &&
      fsHas fs ("data/assets/virtual/legacy/" ++ a.legacyPath)) = true) :
    collectAssets fs (a :: rest) = collectAssets fs rest := by
  simp [collectAssets, h]

theorem collectAssets_cons_add (fs : List String) (a : AssetObject)
    (rest : List AssetObject)
    (h : (fsHas fs ("data/assets/objects/" ++ hashSubPath a.hash) &&
      fsHas fs ("data/assets/virtual/legacy/" ++ a.legacyPath)) = false) :
    collectAssets fs (a :: rest) =
      (hashSubPath a.hash, "data/assets/virtual/legacy/" ++ a.legacyPath) ::
        collectAssets fs rest := by
  simp [collectAssets, h]

theorem collectAssets_stable (assets : List AssetObject) (fs fs' : List String)
    (hsub : ∀ x ∈ fs, x ∈ fs')
    (hq : ∀ e ∈ collectAssets fs assets,
      ("data/assets/objects/" ++ e.1) ∈ fs' ∧ e.2 ∈ fs') :
    collectAssets fs' assets = [] := by
  induction assets with
  | nil => rfl
  | cons a rest ih =>
    cases hb : (fsHas fs ("data/assets/objects/" ++ hashSubPath a.hash) &&
        fsHas fs ("data/assets/virtual/legacy/" ++ a.legacyPath)) with
    | true =>
      rw [collectAssets_cons_skip fs a rest hb] at hq
      obtain ⟨h1, h2⟩ := Bool.and_eq_true_iff.mp hb
      have m1 : ("data/assets/objects/" ++ hashSubPath a.hash) ∈ fs' :=
        hsub _ ((fsHas_iff fs _).mp h1)
      have m2 : ("data/assets/virtual/legacy/" ++ a.legacyPath) ∈ fs' :=
        hsub _ ((fsHas_iff fs _).mp h2)
      rw [collectAssets_cons_skip fs' a rest
        (by rw [(fsHas_iff fs' _).mpr m1, (fsHas_iff fs' _).mpr m2]; rfl)]
      exact ih hq
    | false =>
      rw [collectAssets_cons_add fs a rest hb] at hq
      have m1 : ("data/assets/objects/" ++ hashSubPath a.hash) ∈ fs' :=
        (hq _ (List.mem_cons_self _ _)).1
      have m2 : ("data/assets/virtual/legacy/" ++ a.legacyPath) ∈ fs' :=
        (hq _ (List.mem_cons_self _ _)).2
      rw [collectAssets_cons_skip fs' a rest
        (by rw [(fsHas_iff fs' _).mpr m1, (fsHas_iff fs' _).mpr m2]; rfl)]
      exact ih fun e he => hq e (List.mem_cons_of_mem _ he)

theorem cacheFile_mono (fs : List String) (p : String) :
    ∀ x ∈ fs, x ∈ (cacheFile fs p).1 := by
  intro x hx
  simp only [cacheFile]
  split
  · exact hx
  · exact List.mem_cons_of_mem _ hx

theorem mem_cacheFile (fs : List String) (p : String) : p ∈ (cacheFile fs p).1 := by
  simp only [cacheFile]
  split
  case isTrue h => exact (fsHas_iff fs p).mp h
  case isFalse h => exact List.mem_cons_self _ _

theorem cacheFile_of_mem (fs : List String) (p : String) (h : p ∈ fs) :
    cacheFile fs p = (fs, false) := by
  simp [cacheFile, (fsHas_iff fs p).mpr h]

/-- C3: idempotence of staging. If a `play_version` staging run from `fs0`
completed successfully with outcome `r`, then a second staging run for the
same version over the resulting filesystem `r.fs` performs no network
activity at all: the detail document, client jar and asset index are all
found on disk (no fetch), both download batches have empty queues, the
filesystem is unchanged, and the same classpath is rebuilt. -/
theorem staging_idempotent (host : Host) (canon : String → String) (version : String)
    (vd : VersionDoc) (assets : List AssetObject) (fs0 : List String) (r : StageResult)
    (h : play_stage host canon version vd assets fs0 = some r) :
    play_stage host canon version vd assets r.fs =
      some ⟨r.fs, false, false, false, [], [], r.classpath⟩ := by
  simp only [play_stage] at h
  split at h
  case h_1 => exact absurd h (by simp)
  case h_2 cp libQ heq =>
    have hr := Option.some.inj h
    subst hr
    dsimp only
    simp only [play_stage]
    have s12 : ∀ x ∈ (cacheFile fs0 ("data/versions/" ++ version ++ ".json")).1,
        x ∈ writeLibs (cacheFile fs0 ("data/versions/" ++ version ++ ".json")).1 libQ :=
      subset_writeLibs libQ _
    have s23 := cacheFile_mono
      (writeLibs (cacheFile fs0 ("data/versions/" ++ version ++ ".json")).1 libQ)
      ("data/clients/" ++ vd.id ++ ".jar")
    have s34 := cacheFile_mono
      (cacheFile (writeLibs (cacheFile fs0 ("data/versions/" ++ version ++ ".json")).1 libQ)
        ("data/clients/" ++ vd.id ++ ".jar")).1
      ("data/assets/indexes/" ++ vd.assetIndexId ++ ".json")
    have s45 : ∀ x ∈ (cacheFile (cacheFile (writeLibs
          (cacheFile fs0 ("data/versions/" ++ version ++ ".json")).1 libQ)
          ("data/clients/" ++ vd.id ++ ".jar")).1
          ("data/assets/indexes/" ++ vd.assetIndexId ++ ".json")).1,
        x ∈ writeAssets (cacheFile (cacheFile (writeLibs
          (cacheFile fs0 ("data/versions/" ++ version ++ ".json")).1 libQ)
          ("data/clients/" ++ vd.id ++ ".jar")).1
          ("data/assets/indexes/" ++ vd.assetIndexId ++ ".json")).1
          (collectAssets (cacheFile (cacheFile (writeLibs
            (cacheFile fs0 ("data/versions/" ++ version ++ ".json")).1 libQ)
            ("data/clients/" ++ vd.id ++ ".jar")).1
            ("data/assets/indexes/" ++ vd.assetIndexId ++ ".json")).1 assets) :=
      subset_writeAssets _ _
    have hdfF := s45 _ (s34 _ (s23 _ (s12 _
      (mem_cacheFile fs0 ("data/versions/" ++ version ++ ".json")))))
    have hcfF := s45 _ (s34 _ (mem_cacheFile _ ("data/clients/" ++ vd.id ++ ".jar")))
    have hixF := s45 _ (mem_cacheFile _ ("data/assets/indexes/" ++ vd.assetIndexId ++ ".json"))
    have hlibs2 := collectLibraries_stable host vd.libraries _ _ cp libQ heq
      (fun x hx => s45 _ (s34 _ (s23 _ (s12 x hx))))
      fun e he => s45 _ (s34 _ (s23 _ (mem_writeLibs libQ _ e he)))
    have hass2 := collectAssets_stable assets _ _ s45 fun e he => mem_writeAssets _ _ e he
    rw [cacheFile_of_mem _ _ hdfF]
    dsimp only
    rw [hlibs2]
    dsimp only
    simp only [writeLibs]
    rw [cacheFile_of_mem _ _ hcfF]
    dsimp only
    rw [cacheFile_of_mem _ _ hixF]
    dsimp only
    rw [hass2]
    simp only [writeAssets]

theorem collectLibraries_classpath (host : Host) (libs : List Library)
    (fs : List String) (hfam : host.family = "unix") :
    ∀ (cp : String) (q : List (String × String)),
      collectLibraries host fs libs = some (cp, q) →
      cp = classpathOfPaths (allowedLibPaths host libs) := by
  induction libs with
  | nil =>
    intro cp q h
    simp only [collectLibraries, Option.some_inj, Prod.mk.injEq] at h
    obtain ⟨rfl, rfl⟩ := h
    rfl
  | cons lib rest ih =>
    intro cp q h
    simp only [collectLibraries] at h
    cases hc : checkRules host lib.rules with
    | none => rw [hc] at h; exact absurd h (by simp)
    | some allow =>
      rw [hc] at h
      dsimp only at h
      cases hr : collectLibraries host fs rest with
      | none => rw [hr] at h; exact absurd h (by simp)
      | some pr =>
        obtain ⟨cpR, qR⟩ := pr
        rw [hr] at h
        dsimp only at h
        have hcpR := ih cpR qR hr
        cases allow with
        | false =>
          simp at h
          obtain ⟨rfl, rfl⟩ := h
          rw [hcpR]
          simp [allowedLibPaths, List.filter_cons, hc]
        | true =>
          rw [show (host.family == "unix") = true by simp [hfam]] at h
          have hspec : classpathOfPaths (allowedLibPaths host (lib :: rest)) =
              "data/libraries/" ++ lib.path ++ ":" ++
                classpathOfPaths (allowedLibPaths host rest) := by
            simp [allowedLibPaths, classpathOfPaths, List.filter_cons, hc]
          cases hfs : fsHas fs ("data/libraries/" ++ lib.path) with
          | true =>
            rw [hfs] at h
            simp at h
            obtain ⟨rfl, rfl⟩ := h
            rw [hspec, hcpR]
            simp [String.append_assoc]
          | false =>
            rw [hfs] at h
            simp at h
            obtain ⟨rfl, rfl⟩ := h
            rw [hspec, hcpR]
            simp [String.append_assoc]

/-- C5: classpath assembly. On a unix-family host, the staged classpath is
`"data/libraries/p1:" ++ ... ++ "data/libraries/pn:"` over the rule-allowed
libraries' artifact paths in iteration order — disallowed libraries
contribute nothing — with the (canonicalized) client jar path appended as
the last entry. -/
theorem classpath_assembly (host : Host) (canon : String → String) (version : String)
    (vd : VersionDoc) (assets : List AssetObject) (fs0 : List String) (r : StageResult)
    (hfam : host.family = "unix")
    (h : play_stage host canon version vd assets fs0 = some r) :
    r.classpath = classpathOfPaths (allowedLibPaths host vd.libraries) ++
      canon ("data/clients/" ++ vd.id ++ ".jar") := by
  simp only [play_stage] at h
  split at h
  case h_1 => exact absurd h (by simp)
  case h_2 cp libQ heq =>
    have hr := Option.some.inj h
    subst hr
    dsimp only
    rw [collectLibraries_classpath host vd.libraries _ hfam cp libQ heq]

theorem enqueueAll_go (l acc : List (Nat × String)) :
    (l.foldl (fun d p => add_download d p.1 p.2) (⟨acc⟩ : Downloader Nat)).downloads =
      acc ++ l := by
  induction l generalizing acc with
  | nil => simp
  | cons p l ih =>
    rw [List.foldl_cons]
    rw [show add_download (⟨acc⟩ : Downloader Nat) p.1 p.2 = ⟨acc ++ [p]⟩ from rfl]
    rw [ih (acc ++ [p])]
    simp

theorem enqueueAll_downloads (urls : List String) :
    (enqueueAll urls).downloads = urls.enum := by
  simpa using enqueueAll_go urls.enum []

theorem batch_pairing {α : Type} (net : String → NetResult) (q : List α) (f : α → String) :
    ∀ pr ∈ (download_all net (enqueueAll (q.map f))).1,
      pr.1 < q.length ∧ ∃ e, q[pr.1]? = some e ∧ pr.2 = net (f e) := by
  intro pr hpr
  simp only [download_all, enqueueAll_downloads] at hpr
  obtain ⟨⟨i, u⟩, hmem, rfl⟩ := List.mem_map.mp hpr
  have hget : (q.map f)[i]? = some u := List.mem_enum_iff_getElem?.mp hmem
  rw [List.getElem?_map] at hget
  cases hq : q[i]? with
  | none => rw [hq] at hget; exact absurd hget (by simp)
  | some e =>
    rw [hq] at hget
    simp at hget
    exact ⟨(List.getElem?_eq_some.mp hq).1, e, rfl, by simp [hget]⟩

/-- C9: correlation-id re-pairing. Within one `play_version` call, each
batch's enqueue loop assigns ids densely as 0, 1, 2, ... in enqueue order
into a queue that starts empty, in lockstep with a parallel table of
destinations; therefore every `(id, result)` pair `download_all` returns for
that batch carries an id that is an in-bounds index into the parallel table,
the table entry at that index is the destination recorded when the item was
enqueued (for the library batch, its artifact path; for the asset batch, its
`(subPath, legacyPath)` pair), and the pair's result is the response for
exactly that item's url. -/
theorem correlation_pairing (host : Host) (canon : String → String) (version : String)
    (vd : VersionDoc) (assets : List AssetObject) (fs0 : List String) (r : StageResult)
    (net : String → NetResult)
    (h : play_stage host canon version vd assets fs0 = some r) :
    (∀ pr ∈ (download_all net (enqueueAll (r.libQueue.map Prod.snd))).1,
      pr.1 < (r.libQueue.map Prod.fst).length ∧
      ∃ e, r.libQueue[pr.1]? = some e ∧
        (r.libQueue.map Prod.fst)[pr.1]? = some e.1 ∧ pr.2 = net e.2) ∧
    (∀ pr ∈ (download_all net (enqueueAll (r.assetQueue.map fun e => assetUrl e.1))).1,
      pr.1 < r.assetQueue.length ∧
      ∃ e, r.assetQueue[pr.1]? = some e ∧ pr.2 = net (assetUrl e.1)) := by
  constructor
  · intro pr hpr
    obtain ⟨hlt, e, hget, hres⟩ := batch_pairing net r.libQueue Prod.snd pr hpr
    refine ⟨by simpa using hlt, e, hget, ?_, hres⟩
    rw [List.getElem?_map, hget]
    rfl
  · intro pr hpr
    exact batch_pairing net r.assetQueue (fun e => assetUrl e.1) pr hpr

theorem sample_play_stage :
    play_stage ⟨"linux", "x86_64", "unix"⟩ (fun s => s) "1.20.1"
      ⟨"1.20.1", "http://c", "5", "http://i", [⟨"a.jar", "http://a", none⟩]⟩
      [⟨"icons/icon.png", "abcd"⟩] [] =
      some ⟨["data/assets/virtual/legacy/icons/icon.png", "data/assets/objects/ab/abcd",
        "data/assets/indexes/5.json", "data/clients/1.20.1.jar", "data/libraries/a.jar",
        "data/versions/1.20.1.json"], true, true, true, [("a.jar", "http://a")],
        [("ab/abcd", "data/assets/virtual/legacy/icons/icon.png")],
        "data/libraries/a.jar:data/clients/1.20.1.jar"⟩ := by
  rfl

/-- C3 witness: the idempotence theorem applied to a concrete first run
(one library, one asset, empty starting filesystem). -/
theorem staging_idempotent_witness :
    play_stage ⟨"linux", "x86_64", "unix"⟩ (fun s => s) "1.20.1"
      ⟨"1.20.1", "http://c", "5", "http://i", [⟨"a.jar", "http://a", none⟩]⟩
      [⟨"icons/icon.png", "abcd"⟩]
      ["data/assets/virtual/legacy/icons/icon.png", "data/assets/objects/ab/abcd",
        "data/assets/indexes/5.json", "data/clients/1.20.1.jar", "data/libraries/a.jar",
        "data/versions/1.20.1.json"] =
      some ⟨["data/assets/virtual/legacy/icons/icon.png", "data/assets/objects/ab/abcd",
        "data/assets/indexes/5.json", "data/clients/1.20.1.jar", "data/libraries/a.jar",
        "data/versions/1.20.1.json"], false, false, false, [], [],
        "data/libraries/a.jar:data/clients/1.20.1.jar"⟩ :=
  staging_idempotent ⟨"linux", "x86_64", "unix"⟩ (fun s => s) "1.20.1"
    ⟨"1.20.1", "http://c", "5", "http://i", [⟨"a.jar", "http://a", none⟩]⟩
    [⟨"icons/icon.png", "abcd"⟩] []
    ⟨["data/assets/virtual/legacy/icons/icon.png", "data/assets/objects/ab/abcd",
      "data/assets/indexes/5.json", "data/clients/1.20.1.jar", "data/libraries/a.jar",
      "data/versions/1.20.1.json"], true, true, true, [("a.jar", "http://a")],
      [("ab/abcd", "data/assets/virtual/legacy/icons/icon.png")],
      "data/libraries/a.jar:data/clients/1.20.1.jar"⟩
    sample_play_stage

/-- C5 witness: the classpath theorem applied to the same concrete run. -/
theorem classpath_assembly_witness :
    "data/libraries/a.jar:data/clients/1.20.1.jar" =
      classpathOfPaths (allowedLibPaths ⟨"linux", "x86_64", "unix"⟩
        [⟨"a.jar", "http://a", none⟩]) ++ "data/clients/1.20.1.jar" :=
  classpath_assembly ⟨"linux", "x86_64", "unix"⟩ (fun s => s) "1.20.1"
    ⟨"1.20.1", "http://c", "5", "http://i", [⟨"a.jar", "http://a", none⟩]⟩
    [⟨"icons/icon.png", "abcd"⟩] []
    ⟨["data/assets/virtual/legacy/icons/icon.png", "data/assets/objects/ab/abcd",
      "data/assets/indexes/5.json", "data/clients/1.20.1.jar", "data/libraries/a.jar",
      "data/versions/1.20.1.json"], true, true, true, [("a.jar", "http://a")],
      [("ab/abcd", "data/assets/virtual/legacy/icons/icon.png")],
      "data/libraries/a.jar:data/clients/1.20.1.jar"⟩
    rfl sample_play_stage

/-- C9 witness: the pairing theorem applied to the same concrete run and a
network on which the one enqueued library item fails. -/
theorem correlation_pairing_witness :
    (0 : Nat) < (([("a.jar", "http://a")] : List (String × String)).map Prod.fst).length ∧
    ∃ e, ([("a.jar", "http://a")] : List (String × String))[(0 : Nat)]? = some e ∧
      (([("a.jar", "http://a")] : List (String × String)).map Prod.fst)[(0 : Nat)]? =
        some e.1 ∧
      NetResult.err "down" = NetResult.err "down" :=
  (correlation_pairing ⟨"linux", "x86_64", "unix"⟩ (fun s => s) "1.20.1"
    ⟨"1.20.1", "http://c", "5", "http://i", [⟨"a.jar", "http://a", none⟩]⟩
    [⟨"icons/icon.png", "abcd"⟩] []
    ⟨["data/assets/virtual/legacy/icons/icon.png", "data/assets/objects/ab/abcd",
      "data/assets/indexes/5.json", "data/clients/1.20.1.jar", "data/libraries/a.jar",
      "data/versions/1.20.1.json"], true, true, true, [("a.jar", "http://a")],
      [("ab/abcd", "data/assets/virtual/legacy/icons/icon.png")],
      "data/libraries/a.jar:data/clients/1.20.1.jar"⟩
    (fun _ => NetResult.err "down") sample_play_stage).1
    ((0 : Nat), NetResult.err "down") (by decide)

end HzLauncher
